import Mathlib

/-!
Shallow embedding of the noti dispatch core (src/config.rs, src/commands.rs,
src/error.rs), together with executable models of the external collaborators
the core calls into: serde_json string serialization, Rust
char::escape_default and str::replace, the regex matcher on the literal
fragment the program exercises, the reqwest error type and the http header
validation.  Pure functions of the source become Lean functions; the stdin
loop becomes a recursion over the list of input lines; the transport and
notifier collaborators become function parameters.
-/

namespace Noti

/-! ### Hexadecimal digits (shared by the escape models) -/

/-- Lowercase hexadecimal digit character of a value below sixteen, as
produced by the Rust digit rendering used in escape sequences. -/
def hexChar (n : Nat) : Char :=
  if n < 10 then Char.ofNat (48 + n)
  else if n < 16 then Char.ofNat (87 + n)
  else '*'

/-- Fuel-indexed big-endian hexadecimal rendering of a natural number; any
fuel of at least n suffices, and the fuel only bounds the recursion depth. -/
def toHexFuel : Nat → Nat → List Char
  | 0, _ => []
  | fuel + 1, n => if n = 0 then [] else toHexFuel fuel (n / 16) ++ [hexChar (n % 16)]

def toHex (n : Nat) : List Char := toHexFuel n n

/-- Hexadecimal digits of n with at least one digit, as inside Rust
char::escape_unicode output. -/
def hexStr (n : Nat) : List Char := if n = 0 then ['0'] else toHex n

/-! ### Model of Rust char::escape_default / str::escape_default -/

/-- Modelled from the Rust standard library char::escape_default, used by
WebhookFormat::format_message when escape is set: tab, carriage return, line
feed, backslash, single quote and double quote get two-character backslash
escapes, printable ASCII is kept, and everything else becomes a
backslash-u brace-delimited hexadecimal escape. -/
def escape_default_char (c : Char) : List Char :=
  if c = '\t' then ['\\', 't']
  else if c = '\r' then ['\\', 'r']
  else if c = '\n' then ['\\', 'n']
  else if c = '\\' then ['\\', '\\']
  else if c = Char.ofNat 39 then ['\\', Char.ofNat 39]
  else if c = '"' then ['\\', '"']
  else if 0x20 ≤ c.toNat ∧ c.toNat ≤ 0x7e then [c]
  else '\\' :: 'u' :: Char.ofNat 123 :: (hexStr c.toNat ++ [Char.ofNat 125])

/-- Modelled from Rust str::escape_default: escape every character in
sequence. -/
def escape_default (l : List Char) : List Char := l.flatMap escape_default_char

/-! ### Model of serde_json string serialization -/

/-- Modelled from serde_json's string escaper: double quote and backslash are
escaped, the short control escapes are used for backspace, tab, line feed,
form feed and carriage return, any other control character below 0x20 becomes
a lowercase backslash-u00XY escape, everything else is emitted verbatim. -/
def jsonEscapeChar (c : Char) : List Char :=
  if c = '"' then ['\\', '"']
  else if c = '\\' then ['\\', '\\']
  else if c.toNat = 0x08 then ['\\', 'b']
  else if c = '\t' then ['\\', 't']
  else if c = '\n' then ['\\', 'n']
  else if c.toNat = 0x0c then ['\\', 'f']
  else if c = '\r' then ['\\', 'r']
  else if c.toNat < 0x20 then
    ['\\', 'u', '0', '0', hexChar (c.toNat / 16), hexChar (c.toNat % 16)]
  else [c]

def jsonEscape (l : List Char) : List Char := l.flatMap jsonEscapeChar

/-- Rendering of a JSON string literal: opening quote, escaped content,
closing quote. -/
def jsonString (l : List Char) : List Char := '"' :: (jsonEscape l ++ ['"'])

/-- Rendering of a one-key JSON object exactly as serde_json::to_string
serializes the json! object literals in WebhookFormat::format_message:
no whitespace, one key, one string value. -/
def jsonObj1 (key val : String) : List Char :=
  Char.ofNat 123 :: (jsonString key.data ++ ':' :: (jsonString val.data ++ [Char.ofNat 125]))

/-! ### Model of Rust str::replace (single left-to-right literal pass) -/

/-- Fuel-indexed model of Rust str::replace on character lists: scan left to
right, and at each position either consume a literal occurrence of the
(nonempty) pattern and emit the replacement, or keep the character.  Fuel at
least the length of the scanned list suffices. -/
def replaceFuel (pat rep : List Char) : Nat → List Char → List Char
  | _, [] => []
  | 0, l => l
  | fuel + 1, c :: rest =>
    if pat ≠ [] ∧ (c :: rest).take pat.length = pat then
      rep ++ replaceFuel pat rep fuel ((c :: rest).drop pat.length)
    else c :: replaceFuel pat rep fuel rest

/-- Modelled from Rust str::replace: replace every non-overlapping literal
occurrence of pat, scanning left to right, by rep. -/
def replaceList (pat rep s : List Char) : List Char := replaceFuel pat rep s.length s

/-- Fuel-indexed split of a list at the non-overlapping left-to-right literal
occurrences of a pattern; the pieces are the maximal pattern-free segments. -/
def splitFuel (pat : List Char) : Nat → List Char → List (List Char)
  | _, [] => [[]]
  | 0, l => [l]
  | fuel + 1, c :: rest =>
    if pat ≠ [] ∧ (c :: rest).take pat.length = pat then
      [] :: splitFuel pat fuel ((c :: rest).drop pat.length)
    else
      match splitFuel pat fuel rest with
      | [] => [[c]]
      | p :: ps => (c :: p) :: ps

def splitL (pat s : List Char) : List (List Char) := splitFuel pat s.length s

/-- Join a list of segments with a separator between consecutive segments. -/
def joinWith (sep : List Char) : List (List Char) → List Char
  | [] => []
  | [x] => x
  | x :: y :: rest => x ++ sep ++ joinWith sep (y :: rest)

/-- Decide whether pat occurs as a contiguous sublist of s (an occurrence at
the very end, and the empty pattern, count). -/
def occursPat (pat : List Char) : List Char → Bool
  | [] => decide (pat = [])
  | c :: rest => decide ((c :: rest).take pat.length = pat) || occursPat pat rest

/-! ### Data model (src/config.rs) -/

/-- Where to write received stdin back to. -/
inductive Redirect where
  | Stdout
  | Stderr
deriving DecidableEq, Repr

/-- Notification streaming configuration. -/
structure Stream where
  enabled : Bool
  matching : Option String
  redirect : Option Redirect
deriving DecidableEq, Repr

/-- Builtin supported webhook formats for common webhook providers. -/
inductive StandardWebhookFormat where
  | PlainText
  | Discord
  | GoogleChat
deriving DecidableEq, Repr

/-- Subset of http methods useable with webhooks. -/
inductive HttpMethod where
  | POST
  | PATCH
  | PUT
deriving DecidableEq, Repr

/-- Header mapping and method of a custom webhook; the IndexMap of the source
is an insertion-ordered key-value sequence, embedded as a list of pairs. -/
structure Http where
  headers : List (String × String)
  method : HttpMethod
deriving DecidableEq, Repr

/-- Enables configuring sending notifications to other webhook providers. -/
structure CustomWebhookFormat where
  http : Http
  template : String
  escape : Bool
deriving DecidableEq, Repr

inductive WebhookFormat where
  | Standard (format : StandardWebhookFormat)
  | Custom (format : CustomWebhookFormat)
deriving DecidableEq, Repr

/-- Where to send notifications to. -/
inductive Destination where
  | Webhook (url : String) (format : WebhookFormat)
  | Desktop (summary : String) (persistent : Bool)
deriving DecidableEq, Repr

/-- A noti configuration file. -/
structure Config where
  destination : List Destination
  stream : Stream
deriving DecidableEq, Repr

/-! ### Format engine (src/config.rs, impl WebhookFormat) -/

/-- Return the required content type for the platform.  The Custom branch
consults the Content-Type entry of the configured header mapping and falls
back to text/plain. -/
def WebhookFormat.as_content_type (f : WebhookFormat) : String :=
  match f with
  | .Standard format =>
    match format with
    | .PlainText => "text/plain"
    | .Discord => "application/json"
    | .GoogleChat => "application/json"
  | .Custom format => (format.http.headers.lookup "Content-Type").getD "text/plain"

/-- Format a message as needed by the respective platform: PlainText keeps
the message, Discord and GoogleChat wrap it in a one-key JSON object, and
Custom substitutes the (possibly escape_default-escaped) message for the
literal placeholder in the template. -/
def WebhookFormat.format_message (f : WebhookFormat) (message : String) : String :=
  match f with
  | .Standard format =>
    match format with
    | .PlainText => message
    | .Discord => ⟨jsonObj1 "content" message⟩
    | .GoogleChat => ⟨jsonObj1 "text" message⟩
  | .Custom format =>
    let msg : List Char :=
      match format.escape with
      | false => message.data
      | true => escape_default message.data
    ⟨replaceList "$(message)".data msg format.template.data⟩

/-! ### Error model (src/error.rs) and the reqwest error collaborator -/

/-- Modelled from the reqwest collaborator: an HTTP error carries a
human-readable description of its kind and, optionally, the request URL. -/
structure ReqwestError where
  desc : String
  url : Option String
deriving DecidableEq, Repr

/-- Modelled from reqwest::Error::without_url: drop the attached URL. -/
def ReqwestError.without_url (e : ReqwestError) : ReqwestError := ⟨e.desc, none⟩

/-- Modelled from the reqwest collaborator: the Display of an HTTP error
appends a parenthesized "for url" clause exactly when a URL is attached. -/
def ReqwestError.display (e : ReqwestError) : String :=
  match e.url with
  | some u => e.desc ++ " for url (" ++ u ++ ")"
  | none => e.desc

/-- Error enumeration of src/error.rs; payloads of external error types are
embedded as their human-readable messages. -/
inductive Error where
  | NoConfig
  | NoMessage
  | StreamAndMessage
  | Io (msg : String)
  | ConfigConflict (path : String)
  | InvalidConfig (msg : String)
  | Http (e : ReqwestError)
  | UnknownHttpHeader (name : String)
  | InvalidHttpHeader (value : String)
  | Regex (pattern : String)
  | NotifyRust (msg : String)
deriving DecidableEq, Repr

/-- Display implementation of src/error.rs. -/
def Error.display : Error → String
  | .NoConfig => "No config file found, please create one or provide the path with --config"
  | .ConfigConflict p => "Config file `" ++ p ++ "` already exists"
  | .InvalidConfig e => "Invalid config file: " ++ e
  | .Http e => "An error occurred when sending a request: " ++ e.display
  | .UnknownHttpHeader e => e
  | .InvalidHttpHeader e => e
  | .Regex e => "Failed to parse regex: " ++ e
  | .Io e => "IO: " ++ e
  | .NoMessage => "A message must be provided when not streaming notifications"
  | .StreamAndMessage => "A message cannot be provided when using streaming"
  | .NotifyRust e => "Failed to send desktop notification: " ++ e

/-- From implementation for reqwest errors in src/error.rs: the URL is
stripped from the error before it is wrapped. -/
def Error.fromReqwest (error : ReqwestError) : Error := .Http error.without_url

/-! ### Header conversion (src/config.rs, AsHeaderMap) -/

/-- Modelled from the http crate: characters legal in a header name token. -/
def headerNameChar (c : Char) : Bool :=
  c.isAlphanum ||
    c ∈ ['!', '#', '$', '%', '&', Char.ofNat 39, '*', '+', '-', '.',
         '^', '_', Char.ofNat 96, '|', '~']

/-- Modelled from http::HeaderName::from_bytes: nonempty, token characters
only (the constructed name is lowercased). -/
def headerNameValid (s : String) : Bool := !s.data.isEmpty && s.data.all headerNameChar

/-- Modelled from http::HeaderValue::from_bytes: tab or any byte that is
neither a control character below 0x20 nor delete. -/
def headerValueChar (c : Char) : Bool :=
  c = '\t' || (0x20 ≤ c.toNat && c.toNat ≠ 127)

def headerValueValid (s : String) : Bool := s.data.all headerValueChar

/-- Lowercase a header name character by character, as http::HeaderName
construction does. -/
def headerLower (s : String) : String := ⟨s.data.map Char.toLower⟩

/-- AsHeaderMap for the ordered header mapping (src/config.rs): validate the
name and then the value of each entry in order, stopping at the first invalid
one; names are lowercased as the http crate does. -/
def as_header_map : List (String × String) → Except Error (List (String × String))
  | [] => .ok []
  | (k, v) :: rest =>
    if headerNameValid k then
      if headerValueValid v then
        match as_header_map rest with
        | .ok hs => .ok ((headerLower k, v) :: hs)
        | .error e => .error e
      else .error (.InvalidHttpHeader v)
    else .error (.UnknownHttpHeader k)

/-! ### Single dispatcher (src/commands.rs) -/

/-- Observable shape of the one HTTP request dispatch_webhook issues. -/
structure HttpRequest where
  method : HttpMethod
  url : String
  headers : List (String × String)
  body : String
deriving DecidableEq, Repr

/-- Request construction inside dispatch_webhook: the Custom format uses its
configured method and validated header mapping, every other (Standard) format
uses POST with the single content-type header of the format; the body is the
formatted message in both cases. -/
def buildWebhookRequest (url : String) (format : WebhookFormat) (message : String) :
    Except Error HttpRequest :=
  match format with
  | .Custom fmt =>
    match as_header_map fmt.http.headers with
    | .error e => .error e
    | .ok hs => .ok ⟨fmt.http.method, url, hs, format.format_message message⟩
  | _ => .ok ⟨.POST, url, [("content-type", format.as_content_type)],
              format.format_message message⟩

/-- Collaborators injected into the dispatch core: the HTTP transport (send
plus error_for_status) and the desktop notifier. -/
structure Env where
  transport : HttpRequest → Except ReqwestError Unit
  notifier : String → String → Bool → Except String Unit

/-- Send a message over webhook: build the request, hand it to the transport,
and wrap a transport failure through the From conversion that strips the
URL. -/
def dispatch_webhook (transport : HttpRequest → Except ReqwestError Unit)
    (message url : String) (format : WebhookFormat) : Except Error Unit :=
  match buildWebhookRequest url format message with
  | .error e => .error e
  | .ok req =>
    match transport req with
    | .error e => .error (Error.fromReqwest e)
    | .ok _ => .ok ()

/-- Send a desktop notification through the notifier collaborator. -/
def dispatch_desktop (notifier : String → String → Bool → Except String Unit)
    (message summary : String) (persistent : Bool) : Except Error Unit :=
  match notifier message summary persistent with
  | .error e => .error (.NotifyRust e)
  | .ok _ => .ok ()

/-- Send a message to the configured destination. -/
def dispatch (env : Env) (message : String) (destination : Destination) :
    Except Error Unit :=
  match destination with
  | .Webhook url format => dispatch_webhook env.transport message url format
  | .Desktop summary persistent => dispatch_desktop env.notifier message summary persistent

/-! ### Fan-out dispatcher (src/commands.rs, dispatch_all) -/

/-- Join point of try_join_all: succeed when every task result is a success,
otherwise report the first failure in task order. -/
def firstError : List (Except Error Unit) → Except Error Unit
  | [] => .ok ()
  | .ok _ :: rest => firstError rest
  | .error e :: _ => .error e

/-- Send a message to all configured destinations: one dispatch task per
destination, joined by try_join_all. -/
def dispatch_all (env : Env) (message : String) (config : Config) : Except Error Unit :=
  firstError (config.destination.map (dispatch env message))

/-! ### Regex collaborator model -/

/-- Compiled form of the regex fragment this development needs: an optional
leading start-of-input anchor followed by literal characters. -/
structure LitRegex where
  anchored : Bool
  lit : List Char
deriving DecidableEq, Repr

/-- Characters that are metacharacters of the regex language; a pattern
containing one outside the leading anchor position is not in the modelled
fragment. -/
def regexMeta (c : Char) : Bool :=
  c ∈ ['(', ')', '[', ']', Char.ofNat 123, Char.ofNat 125,
       '*', '+', '?', '|', '.', '\\', '$', '^']

/-- Modelled from the regex collaborator on the fragment the program
exercises: compile an optional leading anchor plus literal characters; a
pattern using other metacharacters (in particular the unclosed group used
below as an invalid pattern) does not compile. -/
def regexCompile (pattern : String) : Option LitRegex :=
  match pattern.data with
  | '^' :: rest => if rest.all (fun c => !regexMeta c) then some ⟨true, rest⟩ else none
  | l => if l.all (fun c => !regexMeta c) then some ⟨false, l⟩ else none

/-- Modelled from Regex::captures composed with Captures::get 0: the overall
matched substring of the first (leftmost) successful match, which for a
literal pattern is the literal itself. -/
def LitRegex.captures (re : LitRegex) (s : String) : Option String :=
  if re.anchored then
    if s.data.take re.lit.length = re.lit then some ⟨re.lit⟩ else none
  else if occursPat re.lit s.data then some ⟨re.lit⟩ else none

deriving instance DecidableEq for Except

/-! ### Stream processor (src/commands.rs, stream_and_dispatch) -/

/-- Observable outcome of a stream_and_dispatch run: final result, the
messages handed to dispatch_all in order, the lines echoed to standard output
and to standard error, and how many times the matching pattern was handed to
the regex compiler. -/
structure StreamResult where
  outcome : Except Error Unit
  dispatched : List String
  echoOut : List String
  echoErr : List String
  compiles : Nat
deriving DecidableEq, Repr

/-- Dispatch messages by listening to stdin, embedded over the list of lines
the process will read: per line, echo according to the redirect setting, then
with a matching pattern set compile it (on this line), skip the line unless
it matches, and fan out the overall matched substring; without a pattern fan
out the raw line.  A compile or dispatch failure terminates the loop with
that error. -/
def stream_and_dispatch (env : Env) (config : Config) : List String → StreamResult
  | [] => ⟨.ok (), [], [], [], 0⟩
  | value :: rest =>
    let echoO : List String :=
      match config.stream.redirect with
      | some .Stdout => [value]
      | _ => []
    let echoE : List String :=
      match config.stream.redirect with
      | some .Stderr => [value]
      | _ => []
    match config.stream.matching with
    | some pattern =>
      match regexCompile pattern with
      | none => ⟨.error (.Regex pattern), [], echoO, echoE, 1⟩
      | some re =>
        match re.captures value with
        | none =>
          let r := stream_and_dispatch env config rest
          ⟨r.outcome, r.dispatched, echoO ++ r.echoOut, echoE ++ r.echoErr, 1 + r.compiles⟩
        | some msg =>
          match dispatch_all env msg config with
          | .error e => ⟨.error e, [msg], echoO, echoE, 1⟩
          | .ok _ =>
            let r := stream_and_dispatch env config rest
            ⟨r.outcome, msg :: r.dispatched, echoO ++ r.echoOut, echoE ++ r.echoErr,
             1 + r.compiles⟩
    | none =>
      match dispatch_all env value config with
      | .error e => ⟨.error e, [value], echoO, echoE, 0⟩
      | .ok _ =>
        let r := stream_and_dispatch env config rest
        ⟨r.outcome, value :: r.dispatched, echoO ++ r.echoOut, echoE ++ r.echoErr, 0⟩

/-! ### Entrypoint (src/commands.rs, execute) -/

/-- Observable outcome of execute: final result, messages handed to
dispatch_all, and the number of per-destination dispatch tasks launched. -/
structure ExecResult where
  outcome : Except Error Unit
  dispatched : List String
  attempts : Nat
deriving DecidableEq, Repr

/-- Program's main entrypoint after configuration loading: the four cases of
the (stream.enabled, message) match of execute. -/
def execute (env : Env) (config : Config) (message : Option String)
    (input : List String) : ExecResult :=
  match config.stream.enabled, message with
  | true, none =>
    let r := stream_and_dispatch env config input
    ⟨r.outcome, r.dispatched, r.dispatched.length * config.destination.length⟩
  | true, some _ => ⟨.error .StreamAndMessage, [], 0⟩
  | false, none => ⟨.error .NoMessage, [], 0⟩
  | false, some m => ⟨dispatch_all env m config, [m], config.destination.length⟩

/-! ### Auxiliary predicates and decoders used by the theorem statements -/

/-- Scan a character list left to right and check that every double quote is
consumed as the target of a preceding backslash escape, i.e. no quote occurs
unescaped. -/
def quotesEscaped : List Char → Bool
  | [] => true
  | c :: rest =>
    if c = '\\' then
      match rest with
      | [] => true
      | _ :: rest2 => quotesEscaped rest2
    else if c = '"' then false
    else quotesEscaped rest

/-- Value of a hexadecimal digit character. -/
def hexVal (c : Char) : Option Nat :=
  if '0' ≤ c ∧ c ≤ '9' then some (c.toNat - 48)
  else if 'a' ≤ c ∧ c ≤ 'f' then some (c.toNat - 87)
  else if 'A' ≤ c ∧ c ≤ 'F' then some (c.toNat - 55)
  else none

/-- Prepend a decoded character to a pending string-decoding result. -/
def consFst (c : Char) : Option (List Char × List Char) → Option (List Char × List Char)
  | none => none
  | some (s, rest) => some (c :: s, rest)

/-- Decoder for one JSON escape sequence positioned after the backslash:
decode the escaped character (short escapes, a solidus, or a four-digit
backslash-u scalar outside the surrogate range) and continue with k. -/
def parseEscAfter (k : List Char → Option (List Char × List Char)) :
    List Char → Option (List Char × List Char)
  | [] => none
  | e :: rest2 =>
    if e = '"' then consFst '"' (k rest2)
    else if e = '\\' then consFst '\\' (k rest2)
    else if e = '/' then consFst '/' (k rest2)
    else if e = 'b' then consFst (Char.ofNat 8) (k rest2)
    else if e = 'f' then consFst (Char.ofNat 12) (k rest2)
    else if e = 'n' then consFst '\n' (k rest2)
    else if e = 'r' then consFst '\r' (k rest2)
    else if e = 't' then consFst '\t' (k rest2)
    else if e = 'u' then
      match rest2 with
      | h1 :: h2 :: h3 :: h4 :: rest3 =>
        match hexVal h1, hexVal h2, hexVal h3, hexVal h4 with
        | some a, some b, some c2, some d =>
          if ((a * 16 + b) * 16 + c2) * 16 + d < 0xd800 then
            consFst (Char.ofNat (((a * 16 + b) * 16 + c2) * 16 + d)) (k rest3)
          else none
        | _, _, _, _ => none
      | _ => none
    else none

/-- Fuel-indexed strict decoder for the body of a JSON string literal,
positioned after the opening quote: consume plain characters and escape
sequences up to the closing quote, returning the decoded content and the
remainder after the closing quote; raw control characters and malformed
escapes are rejected.  Each step consumes at least one character, so fuel
at least the input length suffices. -/
def parseStrFuel (fuel : Nat) : List Char → Option (List Char × List Char) :=
  Nat.rec (motive := fun _ => List Char → Option (List Char × List Char))
    (fun _ => none)
    (fun _ ih l =>
      match l with
      | [] => none
      | c :: rest =>
        if c = '"' then some ([], rest)
        else if c = '\\' then parseEscAfter ih rest
        else if c.toNat < 0x20 then none
        else consFst c (ih rest))
    fuel

/-- Decoder for the body of a JSON string literal, with enough fuel for its
input. -/
def parseStrAux (l : List Char) : Option (List Char × List Char) :=
  parseStrFuel l.length l

/-- Decoder for a whole JSON string literal including its quotes. -/
def parseString : List Char → Option (List Char × List Char)
  | '"' :: rest => parseStrAux rest
  | _ => none

/-- Decoder for a one-key JSON object whose value is a string literal:
accepts exactly the brace-quote-key-quote-colon-quote-value-quote-brace
shape and returns the key and the decoded value. -/
def parseObj1 (l : List Char) : Option (String × String) :=
  match l with
  | [] => none
  | c :: rest =>
    if c = Char.ofNat 123 then
      match parseString rest with
      | none => none
      | some (k, rest2) =>
        match rest2 with
        | ':' :: rest3 =>
          match parseString rest3 with
          | none => none
          | some (v, rest4) =>
            if rest4 = [Char.ofNat 125] then some (⟨k⟩, ⟨v⟩) else none
        | _ => none
    else none

/-- Literal placeholder recognized by the Custom template substitution. -/
def messagePlaceholder : List Char := "$(message)".data

/-! ### Concrete collaborators and configurations used by witnesses -/

/-- Environment whose transport and notifier always succeed. -/
def okEnv : Env := ⟨fun _ => .ok (), fun _ _ _ => .ok ()⟩

/-- Environment whose transport always fails with a URL-carrying HTTP error
and whose notifier succeeds. -/
def failEnv : Env :=
  ⟨fun _ => .error ⟨"connection failed", some "https://hooks/secret"⟩,
   fun _ _ _ => .ok ()⟩

/-- Streaming-off configuration section with the serde defaults. -/
def streamOff : Stream := ⟨false, none, some .Stdout⟩

/-- Configuration with a desktop destination followed by a webhook one. -/
def cfgW : Config :=
  ⟨[.Desktop "a" false, .Webhook "https://hooks/secret" (.Standard .Discord)], streamOff⟩

/-- Streaming configuration with the anchored error pattern of the spec's
streaming example and one desktop destination. -/
def cfgC5 : Config := ⟨[.Desktop "Noti" false], ⟨true, some "^ERROR:", none⟩⟩

/-- Input lines of the spec's streaming example. -/
def linesC5 : List String := ["info", "ERROR: disk full", "ok"]

/-- Streaming configuration whose matching pattern is an invalid regular
expression (an unclosed group). -/
def cfgC6bad : Config := ⟨[], ⟨true, some "(", none⟩⟩

/-- Streaming configuration with a valid anchored literal pattern and no
destinations. -/
def cfgC6ok : Config := ⟨[], ⟨true, some "^E", none⟩⟩

/-- Non-streaming configuration with one desktop destination. -/
def cfgOff : Config := ⟨[.Desktop "Noti" false], streamOff⟩

/-- Custom format with two placeholder occurrences and escaping off. -/
def fmtC3 : CustomWebhookFormat := ⟨⟨[], .POST⟩, "a $(message) b $(message)", false⟩

/-- Custom format with one bracketed placeholder occurrence and escaping
on. -/
def fmtC4 : CustomWebhookFormat := ⟨⟨[], .POST⟩, "[$(message)]", true⟩

/-- Custom format with a JSON content type, the PUT method and escaping
on. -/
def cFmtC10 : CustomWebhookFormat :=
  ⟨⟨[("Content-Type", "application/json")], .PUT⟩, "x $(message)", true⟩

/-- Request that dispatching through cFmtC10 produces. -/
def reqC10 : HttpRequest := ⟨.PUT, "u", [("content-type", "application/json")], "x m"⟩

/-! ### Lemmas: the single literal pass of str::replace -/

theorem splitFuel_ne_nil (pat : List Char) (fuel : Nat) (s : List Char) :
    splitFuel pat fuel s ≠ [] := by
  cases fuel with
  | zero => cases s <;> simp [splitFuel]
  | succ fuel =>
    cases s with
    | nil => simp [splitFuel]
    | cons c rest =>
      simp only [splitFuel]
      split
      · simp
      · split <;> simp

theorem splitFuel_head_pref (pat : List Char) :
    ∀ (fuel : Nat) (s p : List Char) (ps : List (List Char)),
      splitFuel pat fuel s = p :: ps → ∃ t, s = p ++ t := by
  intro fuel
  induction fuel with
  | zero =>
    intro s p ps h
    cases s with
    | nil => simp [splitFuel] at h; exact ⟨[], by simp [h.1.symm]⟩
    | cons c rest => simp [splitFuel] at h; exact ⟨[], by simp [h.1.symm]⟩
  | succ fuel ih =>
    intro s p ps h
    cases s with
    | nil => simp [splitFuel] at h; exact ⟨[], by simp [h.1.symm]⟩
    | cons c rest =>
      simp only [splitFuel] at h
      split at h
      · exact ⟨(c :: rest), by simp [(List.cons_eq_cons.mp h).1.symm]⟩
      · rename_i hc
        cases h' : splitFuel pat fuel rest with
        | nil => exact absurd h' (splitFuel_ne_nil pat fuel rest)
        | cons p' ps' =>
          rw [h'] at h
          obtain ⟨hp, hps⟩ := List.cons_eq_cons.mp h
          obtain ⟨t, ht⟩ := ih rest p' ps' h'
          exact ⟨t, by rw [← hp, ht]; rfl⟩

theorem splitFuel_clean (pat : List Char) (hpat : pat ≠ []) :
    ∀ (fuel : Nat) (s : List Char), s.length ≤ fuel →
      ∀ p ∈ splitFuel pat fuel s, occursPat pat p = false := by
  intro fuel
  induction fuel with
  | zero =>
    intro s hs p hp
    have hnil : s = [] := List.length_eq_zero.mp (Nat.le_zero.mp hs)
    subst hnil
    simp [splitFuel] at hp
    simp [hp, occursPat, hpat]
  | succ fuel ih =>
    intro s hs p hp
    cases s with
    | nil => simp [splitFuel] at hp; simp [hp, occursPat, hpat]
    | cons c rest =>
      simp only [splitFuel] at hp
      split at hp
      · rename_i hc
        rcases List.mem_cons.mp hp with h | h
        · simp [h, occursPat, hpat]
        · refine ih _ ?_ p h
          have h1 : 1 ≤ pat.length := List.length_pos.mpr hpat
          simp only [List.length_drop, List.length_cons]
          simp only [List.length_cons] at hs
          omega
      · rename_i hc
        have hrest : rest.length ≤ fuel := by
          simp only [List.length_cons] at hs; omega
        cases h' : splitFuel pat fuel rest with
        | nil => exact absurd h' (splitFuel_ne_nil pat fuel rest)
        | cons p' ps' =>
          rw [h'] at hp
          rcases List.mem_cons.mp hp with h | h
          · subst h
            have hp' : occursPat pat p' = false := by
              refine ih rest hrest p' ?_
              rw [h']; exact List.mem_cons_self _ _
            simp only [occursPat, Bool.or_eq_false_iff, decide_eq_false_iff_not]
            refine ⟨?_, hp'⟩
            intro htake
            have hlen : pat.length ≤ (c :: p').length := by
              have := congrArg List.length htake
              rw [List.length_take] at this
              omega
            obtain ⟨t, ht⟩ := splitFuel_head_pref pat fuel rest p' ps' h'
            have : (c :: rest).take pat.length = pat := by
              rw [ht]
              show ((c :: p') ++ t).take pat.length = pat
              rw [List.take_append_of_le_length hlen]
              exact htake
            exact hc ⟨hpat, this⟩
          · refine ih rest hrest p ?_
            rw [h']; exact List.mem_cons_of_mem _ h

theorem replaceFuel_eq_joinWith (pat rep : List Char) :
    ∀ (fuel : Nat) (s : List Char), s.length ≤ fuel →
      replaceFuel pat rep fuel s = joinWith rep (splitFuel pat fuel s) := by
  intro fuel
  induction fuel with
  | zero =>
    intro s hs
    have hnil : s = [] := List.length_eq_zero.mp (Nat.le_zero.mp hs)
    subst hnil
    rfl
  | succ fuel ih =>
    intro s hs
    cases s with
    | nil => rfl
    | cons c rest =>
      simp only [replaceFuel, splitFuel]
      split
      · rename_i hc
        have h1 : 1 ≤ pat.length := List.length_pos.mpr hc.1
        have hdrop : ((c :: rest).drop pat.length).length ≤ fuel := by
          simp only [List.length_drop, List.length_cons]
          simp only [List.length_cons] at hs
          omega
        rw [ih _ hdrop]
        cases h' : splitFuel pat fuel ((c :: rest).drop pat.length) with
        | nil => exact absurd h' (splitFuel_ne_nil pat fuel _)
        | cons p ps => simp [joinWith]
      · rename_i hc
        have hrest : rest.length ≤ fuel := by
          simp only [List.length_cons] at hs; omega
        rw [ih _ hrest]
        cases h' : splitFuel pat fuel rest with
        | nil => exact absurd h' (splitFuel_ne_nil pat fuel rest)
        | cons p ps =>
          cases ps with
          | nil => simp [joinWith]
          | cons q ps' => simp [joinWith]

theorem replaceFuel_of_not_occurs (pat rep : List Char) :
    ∀ (fuel : Nat) (s : List Char), s.length ≤ fuel →
      occursPat pat s = false → replaceFuel pat rep fuel s = s := by
  intro fuel
  induction fuel with
  | zero =>
    intro s hs _
    have hnil : s = [] := List.length_eq_zero.mp (Nat.le_zero.mp hs)
    subst hnil; rfl
  | succ fuel ih =>
    intro s hs hocc
    cases s with
    | nil => rfl
    | cons c rest =>
      simp only [occursPat, Bool.or_eq_false_iff, decide_eq_false_iff_not] at hocc
      simp only [replaceFuel]
      rw [if_neg (by intro h; exact hocc.1 h.2)]
      have hrest : rest.length ≤ fuel := by
        simp only [List.length_cons] at hs; omega
      rw [ih rest hrest hocc.2]

theorem mem_replaceFuel (pat rep : List Char) :
    ∀ (fuel : Nat) (s : List Char) (x : Char),
      x ∈ replaceFuel pat rep fuel s → x ∈ s ∨ x ∈ rep := by
  intro fuel
  induction fuel with
  | zero =>
    intro s x hx
    cases s with
    | nil => simp [replaceFuel] at hx
    | cons c rest => exact Or.inl hx
  | succ fuel ih =>
    intro s x hx
    cases s with
    | nil => simp [replaceFuel] at hx
    | cons c rest =>
      simp only [replaceFuel] at hx
      split at hx
      · rcases List.mem_append.mp hx with h | h
        · exact Or.inr h
        · rcases ih _ x h with h' | h'
          · exact Or.inl (List.drop_subset _ _ h')
          · exact Or.inr h'
      · rcases List.mem_cons.mp hx with h | h
        · exact Or.inl (h ▸ List.mem_cons_self _ _)
        · rcases ih rest x h with h' | h'
          · exact Or.inl (List.mem_cons_of_mem _ h')
          · exact Or.inr h'

theorem replaceList_eq_joinWith (pat rep s : List Char) :
    replaceList pat rep s = joinWith rep (splitL pat s) :=
  replaceFuel_eq_joinWith pat rep s.length s (Nat.le_refl _)

theorem splitL_clean (pat : List Char) (hpat : pat ≠ []) (s : List Char) :
    ∀ p ∈ splitL pat s, occursPat pat p = false :=
  splitFuel_clean pat hpat s.length s (Nat.le_refl _)

theorem replaceList_of_not_occurs (pat rep s : List Char)
    (h : occursPat pat s = false) : replaceList pat rep s = s :=
  replaceFuel_of_not_occurs pat rep s.length s (Nat.le_refl _) h

theorem mem_replaceList (pat rep s : List Char) (x : Char)
    (h : x ∈ replaceList pat rep s) : x ∈ s ∨ x ∈ rep :=
  mem_replaceFuel pat rep s.length s x h

/-! ### Lemmas: the escape_default transformation -/

theorem hexChar_ok (n : Nat) :
    0x20 ≤ (hexChar n).toNat ∧ hexChar n ≠ '"' ∧ hexChar n ≠ '\\' := by
  by_cases h : n < 16
  · interval_cases n <;> decide
  · unfold hexChar
    rw [if_neg (by omega), if_neg h]
    decide

theorem toHexFuel_ok :
    ∀ (fuel n : Nat) (x : Char), x ∈ toHexFuel fuel n →
      0x20 ≤ x.toNat ∧ x ≠ '"' ∧ x ≠ '\\' := by
  intro fuel
  induction fuel with
  | zero => intro n x hx; simp [toHexFuel] at hx
  | succ fuel ih =>
    intro n x hx
    simp only [toHexFuel] at hx
    split at hx
    · simp at hx
    · rcases List.mem_append.mp hx with h | h
      · exact ih _ x h
      · rw [List.mem_singleton.mp h]; exact hexChar_ok _

theorem hexStr_ok (n : Nat) (x : Char) (hx : x ∈ hexStr n) :
    0x20 ≤ x.toNat ∧ x ≠ '"' ∧ x ≠ '\\' := by
  unfold hexStr at hx
  split at hx
  · rw [List.mem_singleton.mp hx]; decide
  · exact toHexFuel_ok _ _ x hx

theorem escape_default_char_printable (c x : Char)
    (hx : x ∈ escape_default_char c) : 0x20 ≤ x.toNat := by
  unfold escape_default_char at hx
  split_ifs at hx with h1 h2 h3 h4 h5 h6 h7
  · rcases List.mem_cons.mp hx with h | h
    · simp [h]
    · rw [List.mem_singleton.mp h]; decide
  · rcases List.mem_cons.mp hx with h | h
    · simp [h]
    · rw [List.mem_singleton.mp h]; decide
  · rcases List.mem_cons.mp hx with h | h
    · simp [h]
    · rw [List.mem_singleton.mp h]; decide
  · rcases List.mem_cons.mp hx with h | h
    · simp [h]
    · rw [List.mem_singleton.mp h]; decide
  · rcases List.mem_cons.mp hx with h | h
    · simp [h]
    · rw [List.mem_singleton.mp h]; decide
  · rcases List.mem_cons.mp hx with h | h
    · simp [h]
    · rw [List.mem_singleton.mp h]; decide
  · rw [List.mem_singleton.mp hx]; exact h7.1
  · rcases List.mem_cons.mp hx with h | h
    · simp [h]
    · rcases List.mem_cons.mp h with h' | h'
      · simp [h']
      · rcases List.mem_cons.mp h' with h'' | h''
        · simp [h'']
        · rcases List.mem_append.mp h'' with hh | hh
          · exact (hexStr_ok _ x hh).1
          · rw [List.mem_singleton.mp hh]; decide

theorem escape_default_printable (l : List Char) (x : Char)
    (hx : x ∈ escape_default l) : 0x20 ≤ x.toNat := by
  rcases List.mem_flatMap.mp hx with ⟨c, _, hc⟩
  exact escape_default_char_printable c x hc

theorem quotesEscaped_esc (b : Char) (l : List Char) :
    quotesEscaped ('\\' :: b :: l) = quotesEscaped l := rfl

theorem quotesEscaped_cons (c : Char) (l : List Char) (h1 : c ≠ '\\') (h2 : c ≠ '"') :
    quotesEscaped (c :: l) = quotesEscaped l := by
  rw [quotesEscaped.eq_def]
  show (if c = '\\' then
      match l with
      | [] => true
      | _ :: rest2 => quotesEscaped rest2
    else if c = '"' then false
    else quotesEscaped l) = quotesEscaped l
  rw [if_neg h1, if_neg h2]

theorem quotesEscaped_append_of_clean (l rest : List Char)
    (hl : ∀ x ∈ l, x ≠ '"' ∧ x ≠ '\\') :
    quotesEscaped (l ++ rest) = quotesEscaped rest := by
  induction l with
  | nil => rfl
  | cons c l ih =>
    have hc := hl c (List.mem_cons_self _ _)
    rw [List.cons_append, quotesEscaped_cons _ _ hc.2 hc.1]
    exact ih (fun x hx => hl x (List.mem_cons_of_mem _ hx))

theorem quotesEscaped_escape_default_char (c : Char) (rest : List Char) :
    quotesEscaped (escape_default_char c ++ rest) = quotesEscaped rest := by
  unfold escape_default_char
  split_ifs with h1 h2 h3 h4 h5 h6 h7
  · rfl
  · rfl
  · rfl
  · rfl
  · rfl
  · rfl
  · exact quotesEscaped_cons c rest h4 h6
  · rw [List.cons_append, List.cons_append, List.cons_append, quotesEscaped_esc,
        quotesEscaped_cons _ _ (by decide) (by decide), List.append_assoc,
        quotesEscaped_append_of_clean _ _ (fun x hx => (hexStr_ok _ x hx).2),
        List.singleton_append, quotesEscaped_cons _ _ (by decide) (by decide)]

theorem quotesEscaped_escape_default (l : List Char) :
    quotesEscaped (escape_default l) = true := by
  induction l with
  | nil => rfl
  | cons c l ih =>
    show quotesEscaped ((c :: l).flatMap escape_default_char) = true
    rw [List.flatMap_cons, quotesEscaped_escape_default_char]
    exact ih

/-! ### Lemmas: the serde_json bodies decode back to the message -/

theorem hexVal_hexChar (d : Nat) (hd : d < 16) : hexVal (hexChar d) = some d := by
  interval_cases d <;> decide

theorem parseStrFuel_plain (fuel : Nat) (c : Char) (rest : List Char)
    (hq : c ≠ '"') (hb : c ≠ '\\') (hc : ¬ c.toNat < 0x20) :
    parseStrFuel (fuel + 1) (c :: rest) = consFst c (parseStrFuel fuel rest) := by
  show (if c = '"' then some ([], rest)
    else if c = '\\' then parseEscAfter (parseStrFuel fuel) rest
    else if c.toNat < 0x20 then none
    else consFst c (parseStrFuel fuel rest)) = consFst c (parseStrFuel fuel rest)
  rw [if_neg hq, if_neg hb, if_neg hc]

theorem parseStrFuel_esc (fuel : Nat) (rest : List Char) :
    parseStrFuel (fuel + 1) ('\\' :: rest) = parseEscAfter (parseStrFuel fuel) rest := by
  show (if ('\\' : Char) = '"' then some ([], rest)
    else if ('\\' : Char) = '\\' then parseEscAfter (parseStrFuel fuel) rest
    else if ('\\' : Char).toNat < 0x20 then none
    else consFst '\\' (parseStrFuel fuel rest)) = parseEscAfter (parseStrFuel fuel) rest
  rw [if_neg (by decide), if_pos rfl]

theorem psf_escape_block (fuel : Nat) (e ch : Char) (s rest : List Char)
    (hdec : parseEscAfter (parseStrFuel fuel) (e :: (jsonEscape s ++ '"' :: rest))
        = consFst ch (parseStrFuel fuel (jsonEscape s ++ '"' :: rest)))
    (hrec : parseStrFuel fuel (jsonEscape s ++ '"' :: rest) = some (s, rest)) :
    parseStrFuel (fuel + 1) ('\\' :: e :: (jsonEscape s ++ '"' :: rest))
      = some (ch :: s, rest) := by
  rw [parseStrFuel_esc, hdec, hrec]; rfl

theorem parseStrFuel_jsonEscape :
    ∀ (s : List Char) (fuel : Nat) (rest : List Char),
      (jsonEscape s).length + 1 ≤ fuel →
      parseStrFuel fuel (jsonEscape s ++ '"' :: rest) = some (s, rest) := by
  intro s
  induction s with
  | nil =>
    intro fuel rest hf
    cases fuel with
    | zero => omega
    | succ fuel =>
      show parseStrFuel (fuel + 1) ('"' :: rest) = some ([], rest)
      rfl
  | cons c s ih =>
    intro fuel rest hf
    have hstep : jsonEscape (c :: s) = jsonEscapeChar c ++ jsonEscape s :=
      List.flatMap_cons ..
    rw [hstep, List.append_assoc]
    rw [hstep, List.length_append] at hf
    unfold jsonEscapeChar
    split_ifs with hq hb h8 ht hn h12 hr hctl
    · have hlen : (jsonEscapeChar c).length = 2 := by simp [jsonEscapeChar, hq]
      rw [hlen] at hf
      cases fuel with
      | zero => omega
      | succ fuel =>
        show parseStrFuel (fuel + 1) ('\\' :: '"' :: (jsonEscape s ++ '"' :: rest))
            = some (c :: s, rest)
        rw [hq]
        exact psf_escape_block fuel '"' '"' s rest rfl (ih fuel rest (by omega))
    · have hlen : (jsonEscapeChar c).length = 2 := by simp [jsonEscapeChar, hq, hb]
      rw [hlen] at hf
      cases fuel with
      | zero => omega
      | succ fuel =>
        show parseStrFuel (fuel + 1) ('\\' :: '\\' :: (jsonEscape s ++ '"' :: rest))
            = some (c :: s, rest)
        rw [hb]
        exact psf_escape_block fuel '\\' '\\' s rest rfl (ih fuel rest (by omega))
    · have hlen : (jsonEscapeChar c).length = 2 := by simp [jsonEscapeChar, hq, hb, h8]
      rw [hlen] at hf
      have hc8 : Char.ofNat 8 = c := by rw [← h8, Char.ofNat_toNat]
      cases fuel with
      | zero => omega
      | succ fuel =>
        show parseStrFuel (fuel + 1) ('\\' :: 'b' :: (jsonEscape s ++ '"' :: rest))
            = some (c :: s, rest)
        rw [← hc8]
        exact psf_escape_block fuel 'b' (Char.ofNat 8) s rest rfl (ih fuel rest (by omega))
    · have hlen : (jsonEscapeChar c).length = 2 := by simp [jsonEscapeChar, hq, hb, h8, ht]
      rw [hlen] at hf
      cases fuel with
      | zero => omega
      | succ fuel =>
        show parseStrFuel (fuel + 1) ('\\' :: 't' :: (jsonEscape s ++ '"' :: rest))
            = some (c :: s, rest)
        rw [ht]
        exact psf_escape_block fuel 't' '\t' s rest rfl (ih fuel rest (by omega))
    · have hlen : (jsonEscapeChar c).length = 2 := by
        simp [jsonEscapeChar, hq, hb, h8, ht, hn]
      rw [hlen] at hf
      cases fuel with
      | zero => omega
      | succ fuel =>
        show parseStrFuel (fuel + 1) ('\\' :: 'n' :: (jsonEscape s ++ '"' :: rest))
            = some (c :: s, rest)
        rw [hn]
        exact psf_escape_block fuel 'n' '\n' s rest rfl (ih fuel rest (by omega))
    · have hlen : (jsonEscapeChar c).length = 2 := by
        simp [jsonEscapeChar, hq, hb, h8, ht, hn, h12]
      rw [hlen] at hf
      have hc12 : Char.ofNat 12 = c := by rw [← h12, Char.ofNat_toNat]
      cases fuel with
      | zero => omega
      | succ fuel =>
        show parseStrFuel (fuel + 1) ('\\' :: 'f' :: (jsonEscape s ++ '"' :: rest))
            = some (c :: s, rest)
        rw [← hc12]
        exact psf_escape_block fuel 'f' (Char.ofNat 12) s rest rfl (ih fuel rest (by omega))
    · have hlen : (jsonEscapeChar c).length = 2 := by
        simp [jsonEscapeChar, hq, hb, h8, ht, hn, h12, hr]
      rw [hlen] at hf
      cases fuel with
      | zero => omega
      | succ fuel =>
        show parseStrFuel (fuel + 1) ('\\' :: 'r' :: (jsonEscape s ++ '"' :: rest))
            = some (c :: s, rest)
        rw [hr]
        exact psf_escape_block fuel 'r' '\r' s rest rfl (ih fuel rest (by omega))
    · have hlen : (jsonEscapeChar c).length = 6 := by
        simp [jsonEscapeChar, hq, hb, h8, ht, hn, h12, hr, hctl]
      rw [hlen] at hf
      cases fuel with
      | zero => omega
      | succ fuel =>
        show parseStrFuel (fuel + 1)
            ('\\' :: 'u' :: '0' :: '0' :: hexChar (c.toNat / 16) :: hexChar (c.toNat % 16)
              :: (jsonEscape s ++ '"' :: rest)) = some (c :: s, rest)
        rw [parseStrFuel_esc]
        have hu : parseEscAfter (parseStrFuel fuel)
            ('u' :: '0' :: '0' :: hexChar (c.toNat / 16) :: hexChar (c.toNat % 16)
              :: (jsonEscape s ++ '"' :: rest))
            = (match hexVal '0', hexVal '0', hexVal (hexChar (c.toNat / 16)),
                  hexVal (hexChar (c.toNat % 16)) with
                | some a, some b, some c2, some d =>
                  if ((a * 16 + b) * 16 + c2) * 16 + d < 0xd800 then
                    consFst (Char.ofNat (((a * 16 + b) * 16 + c2) * 16 + d))
                      (parseStrFuel fuel (jsonEscape s ++ '"' :: rest))
                  else none
                | _, _, _, _ => none) := rfl
        rw [hu, show hexVal '0' = some 0 from rfl,
            hexVal_hexChar (c.toNat / 16) (by omega),
            hexVal_hexChar (c.toNat % 16) (by omega)]
        show (if ((0 * 16 + 0) * 16 + c.toNat / 16) * 16 + c.toNat % 16 < 0xd800 then
            consFst (Char.ofNat (((0 * 16 + 0) * 16 + c.toNat / 16) * 16 + c.toNat % 16))
              (parseStrFuel fuel (jsonEscape s ++ '"' :: rest))
          else none) = some (c :: s, rest)
        have harith : ((0 * 16 + 0) * 16 + c.toNat / 16) * 16 + c.toNat % 16 = c.toNat := by
          omega
        rw [harith, if_pos (by omega), Char.ofNat_toNat, ih fuel rest (by omega)]
        rfl
    · have hlen : (jsonEscapeChar c).length = 1 := by
        simp [jsonEscapeChar, hq, hb, h8, ht, hn, h12, hr, hctl]
      rw [hlen] at hf
      cases fuel with
      | zero => omega
      | succ fuel =>
        show parseStrFuel (fuel + 1) (c :: (jsonEscape s ++ '"' :: rest))
            = some (c :: s, rest)
        rw [parseStrFuel_plain fuel c _ hq hb hctl, ih fuel rest (by omega)]
        rfl

theorem parseString_jsonString (s rest : List Char) :
    parseString (jsonString s ++ rest) = some (s, rest) := by
  have h1 : jsonString s ++ rest = '"' :: (jsonEscape s ++ '"' :: rest) := by
    show ('"' :: (jsonEscape s ++ ['"'])) ++ rest = _
    rw [List.cons_append, List.append_assoc, List.singleton_append]
  rw [h1]
  show parseStrAux (jsonEscape s ++ '"' :: rest) = some (s, rest)
  exact parseStrFuel_jsonEscape s _ rest (by simp [List.length_append])

theorem parseObj1_jsonObj1 (key val : String) :
    parseObj1 (jsonObj1 key val) = some (key, val) := by
  have h2 : parseString (jsonString key.data ++ ':' :: (jsonString val.data ++ [Char.ofNat 125]))
      = some (key.data, ':' :: (jsonString val.data ++ [Char.ofNat 125])) :=
    parseString_jsonString ..
  have h3 : parseString (jsonString val.data ++ [Char.ofNat 125])
      = some (val.data, [Char.ofNat 125]) :=
    parseString_jsonString ..
  simp only [jsonObj1, parseObj1, h2, h3]
  rfl

/-! ### Lemmas: the try_join_all join point -/

theorem firstError_eq_ok_iff (l : List (Except Error Unit)) :
    firstError l = .ok () ↔ ∀ r ∈ l, r = .ok () := by
  induction l with
  | nil => simp [firstError]
  | cons r l ih =>
    cases r with
    | ok u =>
      cases u
      simp [firstError, ih]
    | error e =>
      simp [firstError]

theorem firstError_append_error (l1 l2 : List (Except Error Unit)) (e : Error)
    (h : ∀ r ∈ l1, r = .ok ()) :
    firstError (l1 ++ .error e :: l2) = .error e := by
  induction l1 with
  | nil => rfl
  | cons r l1 ih =>
    have hr := h r (List.mem_cons_self _ _)
    subst hr
    show firstError (l1 ++ .error e :: l2) = .error e
    exact ih (fun r hr => h r (List.mem_cons_of_mem _ hr))

/-! ### Lemmas: header conversion -/

theorem as_header_map_ok (hs r : List (String × String))
    (h : as_header_map hs = .ok r) :
    r = hs.map (fun p => (headerLower p.1, p.2)) := by
  induction hs generalizing r with
  | nil =>
    simp [as_header_map] at h
    subst h
    rfl
  | cons p hs ih =>
    obtain ⟨k, v⟩ := p
    simp only [as_header_map] at h
    split_ifs at h
    cases hrec : as_header_map hs with
    | ok hs' =>
      rw [hrec] at h
      simp only [Except.ok.injEq] at h
      rw [← h, List.map_cons, ih hs' hrec]
    | error e => rw [hrec] at h; exact absurd h (by simp)

/-! ### Lemmas: the stream processor -/

theorem stream_and_dispatch_nil (env : Env) (config : Config) :
    stream_and_dispatch env config [] = ⟨.ok (), [], [], [], 0⟩ := rfl

theorem stream_and_dispatch_compile_error (env : Env) (config : Config)
    (pattern : String) (v : String) (rest : List String)
    (hm : config.stream.matching = some pattern)
    (hc : regexCompile pattern = none) :
    (stream_and_dispatch env config (v :: rest)).outcome = .error (.Regex pattern)
    ∧ (stream_and_dispatch env config (v :: rest)).dispatched = []
    ∧ (stream_and_dispatch env config (v :: rest)).compiles = 1 := by
  simp [stream_and_dispatch, hm, hc]

theorem stream_and_dispatch_compiles_per_line (env : Env) (config : Config)
    (pattern : String) (re : LitRegex)
    (hm : config.stream.matching = some pattern)
    (hc : regexCompile pattern = some re)
    (hok : ∀ s, dispatch_all env s config = .ok ()) :
    ∀ input : List String,
      (stream_and_dispatch env config input).compiles = input.length := by
  intro input
  induction input with
  | nil => rfl
  | cons v rest ih =>
    simp only [stream_and_dispatch, hm, hc]
    cases hcap : re.captures v with
    | none => simp [ih]; omega
    | some msg => simp [hok msg, ih]; omega

/-! ### Claim theorems -/

/-- C1: for every message and every ordered sequence of destinations, the
fan-out dispatch succeeds if and only if every per-destination dispatch
succeeds; an empty destination sequence succeeds vacuously with no dispatch
attempt (the task list is empty); and when some dispatch fails, the fan-out
returns the first failure observed at the join point. -/
theorem C1_spec (env : Env) (m : String) (config : Config) :
    (dispatch_all env m config = .ok () ↔ ∀ d ∈ config.destination, dispatch env m d = .ok ())
    ∧ (config.destination = [] →
        dispatch_all env m config = .ok ()
        ∧ config.destination.map (dispatch env m) = [])
    ∧ (∀ pre d post e, config.destination = pre ++ d :: post →
        (∀ p ∈ pre, dispatch env m p = .ok ()) → dispatch env m d = .error e →
        dispatch_all env m config = .error e) := by
  refine ⟨?_, ?_, ?_⟩
  · rw [dispatch_all, firstError_eq_ok_iff]
    constructor
    · intro h d hd
      exact h _ (List.mem_map_of_mem _ hd)
    · intro h r hr
      obtain ⟨d, hd, rfl⟩ := List.mem_map.mp hr
      exact h d hd
  · intro h
    rw [dispatch_all, h]
    exact ⟨rfl, rfl⟩
  · intro pre d post e hconf hpre hd
    rw [dispatch_all, hconf, List.map_append, List.map_cons, hd]
    refine firstError_append_error _ _ e ?_
    intro r hr
    obtain ⟨p, hp, rfl⟩ := List.mem_map.mp hr
    exact hpre p hp

/-- Witness for C1: with a transport that always fails, fan-out over a
succeeding desktop destination followed by a webhook destination reports the
webhook failure (with the URL already stripped by the From conversion). -/
theorem C1_witness :
    dispatch_all failEnv "m" cfgW = .error (.Http ⟨"connection failed", none⟩) :=
  (C1_spec failEnv "m" cfgW).2.2 [.Desktop "a" false]
    (.Webhook "https://hooks/secret" (.Standard .Discord)) []
    (.Http ⟨"connection failed", none⟩) rfl (by decide) (by decide)

/-- C2: the Format Engine renders PlainText with content type text/plain and
the message verbatim, Discord and GoogleChat with content type
application/json and the serde_json serialization of the one-key object with
the documented key, and each JSON body decodes back as exactly that one-key
object with the original message as value. -/
theorem C2_spec (m : String) :
    WebhookFormat.as_content_type (.Standard .PlainText) = "text/plain"
    ∧ WebhookFormat.format_message (.Standard .PlainText) m = m
    ∧ WebhookFormat.as_content_type (.Standard .Discord) = "application/json"
    ∧ (WebhookFormat.format_message (.Standard .Discord) m).data = jsonObj1 "content" m
    ∧ parseObj1 (jsonObj1 "content" m) = some ("content", m)
    ∧ WebhookFormat.as_content_type (.Standard .GoogleChat) = "application/json"
    ∧ (WebhookFormat.format_message (.Standard .GoogleChat) m).data = jsonObj1 "text" m
    ∧ parseObj1 (jsonObj1 "text" m) = some ("text", m) :=
  ⟨rfl, rfl, rfl, rfl, parseObj1_jsonObj1 "content" m, rfl, rfl,
   parseObj1_jsonObj1 "text" m⟩

/-- C3: with escaping off, Custom rendering is exactly the single literal
left-to-right pass replacing every occurrence of the placeholder: the result
is the placeholder-free segments of the template joined by the message (so no
other text changes and the replacement is not rescanned), and a template
without any occurrence is returned unchanged. -/
theorem C3_spec (fmt : CustomWebhookFormat) (m : String) (h : fmt.escape = false) :
    (WebhookFormat.format_message (.Custom fmt) m).data
        = joinWith m.data (splitL messagePlaceholder fmt.template.data)
    ∧ (∀ p ∈ splitL messagePlaceholder fmt.template.data,
        occursPat messagePlaceholder p = false)
    ∧ (occursPat messagePlaceholder fmt.template.data = false →
        WebhookFormat.format_message (.Custom fmt) m = fmt.template) := by
  unfold messagePlaceholder
  have heq : (WebhookFormat.format_message (.Custom fmt) m).data
      = replaceList "$(message)".data m.data fmt.template.data := by
    simp only [WebhookFormat.format_message, h]
  refine ⟨?_, ?_, ?_⟩
  · rw [heq, replaceList_eq_joinWith]
  · exact splitL_clean _ (by decide) _
  · intro hocc
    simp only [WebhookFormat.format_message, h]
    rw [replaceList_of_not_occurs _ _ _ hocc]

/-- Witness for C3: the double-occurrence template with escaping off
instantiated at a concrete message. -/
theorem C3_witness :
    (WebhookFormat.format_message (.Custom fmtC3) "Z").data
        = joinWith "Z".data (splitL messagePlaceholder fmtC3.template.data) :=
  (C3_spec fmtC3 "Z" rfl).1

/-- C4: with escaping on, Custom rendering substitutes the
escape_default-escaped message (a newline becomes backslash-n); the escaped
message contains no control character and every double quote in it is
backslash-escaped, so any raw control character in the body can only come
from the literal template text. -/
theorem C4_spec (fmt : CustomWebhookFormat) (m : String) (h : fmt.escape = true) :
    (WebhookFormat.format_message (.Custom fmt) m).data
        = replaceList messagePlaceholder (escape_default m.data) fmt.template.data
    ∧ escape_default_char '\n' = ['\\', 'n']
    ∧ (∀ x ∈ escape_default m.data, 0x20 ≤ x.toNat)
    ∧ quotesEscaped (escape_default m.data) = true
    ∧ (∀ x ∈ (WebhookFormat.format_message (.Custom fmt) m).data,
        x ∈ fmt.template.data ∨ 0x20 ≤ x.toNat) := by
  unfold messagePlaceholder
  have heq : (WebhookFormat.format_message (.Custom fmt) m).data
      = replaceList "$(message)".data (escape_default m.data) fmt.template.data := by
    simp only [WebhookFormat.format_message, h]
  refine ⟨heq, by decide, ?_, quotesEscaped_escape_default _, ?_⟩
  · exact fun x hx => escape_default_printable _ x hx
  · intro x hx
    rw [heq] at hx
    rcases mem_replaceList _ _ _ _ hx with h' | h'
    · exact Or.inl h'
    · exact Or.inr (escape_default_printable _ x h')

/-- Witness for C4: the bracketed template with escaping on at a message
containing a newline and a double quote; the rendered body is the template
with the two-character escapes substituted. -/
theorem C4_witness :
    (WebhookFormat.format_message (.Custom fmtC4) "a\n\"b").data
        = replaceList messagePlaceholder (escape_default "a\n\"b".data) fmtC4.template.data
    ∧ WebhookFormat.format_message (.Custom fmtC4) "a\n\"b" = "[a\\n\\\"b]" :=
  ⟨(C4_spec fmtC4 "a\n\"b" rfl).1, by decide⟩

/-- Counterexample to C5 as stated: over the documented three input lines the
one dispatched message is not the full line, because the code dispatches the
overall matched substring of the anchored pattern, which covers only the
matched span. -/
theorem C5_counterexample :
    ¬ (stream_and_dispatch okEnv cfgC5 linesC5).dispatched = ["ERROR: disk full"] := by
  decide

/-- C5 (amended): streaming the three documented lines against the anchored
error pattern dispatches exactly one message, equal to the overall matched
substring of the pattern, which is the matched span and not the whole
line. -/
theorem C5_spec :
    (stream_and_dispatch okEnv cfgC5 linesC5).dispatched = ["ERROR:"]
    ∧ (stream_and_dispatch okEnv cfgC5 linesC5).dispatched.length = 1
    ∧ regexCompile "^ERROR:" = some ⟨true, "ERROR:".data⟩
    ∧ LitRegex.captures ⟨true, "ERROR:".data⟩ "ERROR: disk full" = some "ERROR:"
    ∧ (stream_and_dispatch okEnv cfgC5 linesC5).outcome = .ok () := by
  decide

/-- Counterexample to C6 as stated: the invalid pattern (an unclosed group)
is never compiled and no error is surfaced when the input has no lines, and
over two lines a valid pattern is handed to the compiler twice, not once per
process start. -/
theorem C6_counterexample :
    regexCompile "(" = none
    ∧ (stream_and_dispatch okEnv cfgC6bad []).outcome = .ok ()
    ∧ (stream_and_dispatch okEnv cfgC6bad []).compiles = 0
    ∧ (stream_and_dispatch okEnv cfgC6ok ["x", "y"]).compiles = 2 := by
  decide

/-- C6 (amended): with a matching pattern set, the pattern is handed to the
regex compiler once per line read, not once per process start; a compile
failure is surfaced as the fatal Regex configuration error when the first
line is read, terminating the stream with nothing dispatched, and is not
surfaced at all when no line is read. -/
theorem C6_spec (env : Env) (config : Config) (pattern : String) (input : List String)
    (hm : config.stream.matching = some pattern) :
    (regexCompile pattern = none →
      (input = [] → stream_and_dispatch env config input = ⟨.ok (), [], [], [], 0⟩)
      ∧ (∀ v rest, input = v :: rest →
          (stream_and_dispatch env config input).outcome = .error (.Regex pattern)
          ∧ (stream_and_dispatch env config input).dispatched = []
          ∧ (stream_and_dispatch env config input).compiles = 1))
    ∧ (∀ re, regexCompile pattern = some re →
        (∀ s, dispatch_all env s config = .ok ()) →
        (stream_and_dispatch env config input).compiles = input.length) := by
  refine ⟨?_, ?_⟩
  · intro hc
    refine ⟨?_, ?_⟩
    · intro hinput
      subst hinput
      exact stream_and_dispatch_nil env config
    · intro v rest hinput
      subst hinput
      exact stream_and_dispatch_compile_error env config pattern v rest hm hc
  · intro re hre hok
    exact stream_and_dispatch_compiles_per_line env config pattern re hm hre hok input

/-- Witness for C6: over two lines with a valid pattern (and no destinations,
so every fan-out succeeds) the compiler runs twice. -/
theorem C6_witness :
    (stream_and_dispatch okEnv cfgC6ok ["x", "y"]).compiles
      = (["x", "y"] : List String).length :=
  (C6_spec okEnv cfgC6ok "^E" ["x", "y"] rfl).2 ⟨true, "E".data⟩ rfl (fun _ => rfl)

/-- C7: with no message and streaming off the call is the NoMessage usage
error with zero dispatch attempts; with a message and streaming on it is the
StreamAndMessage usage error with zero dispatch attempts; with a message and
streaming off the message is fanned out to all destinations; with no message
and streaming on the stream processor runs. -/
theorem C7_spec (env : Env) (config : Config) (message : Option String)
    (input : List String) :
    (config.stream.enabled = false → message = none →
        execute env config message input = ⟨.error .NoMessage, [], 0⟩)
    ∧ (config.stream.enabled = true → ∀ m, message = some m →
        execute env config message input = ⟨.error .StreamAndMessage, [], 0⟩)
    ∧ (config.stream.enabled = false → ∀ m, message = some m →
        execute env config message input
          = ⟨dispatch_all env m config, [m], config.destination.length⟩)
    ∧ (config.stream.enabled = true → message = none →
        execute env config message input
          = ⟨(stream_and_dispatch env config input).outcome,
             (stream_and_dispatch env config input).dispatched,
             (stream_and_dispatch env config input).dispatched.length
               * config.destination.length⟩) := by
  refine ⟨?_, ?_, ?_, ?_⟩
  · intro he hm
    subst hm
    simp [execute, he]
  · intro he m hm
    subst hm
    simp [execute, he]
  · intro he m hm
    subst hm
    simp [execute, he]
  · intro he hm
    subst hm
    simp [execute, he]

/-- Witness for C7: concrete usage errors in both conflicting modes, with no
dispatch attempt recorded. -/
theorem C7_witness :
    execute okEnv cfgC5 (some "hi") [] = ⟨.error .StreamAndMessage, [], 0⟩
    ∧ execute okEnv cfgOff none [] = ⟨.error .NoMessage, [], 0⟩ :=
  ⟨(C7_spec okEnv cfgC5 (some "hi") []).2.1 rfl "hi" rfl,
   (C7_spec okEnv cfgOff none []).1 rfl rfl⟩

/-- C8: the From conversion for transport errors strips the request URL, the
surfaced human-readable message is determined by the error description alone
(independent of any attached URL, a noninterference property), and a webhook
dispatch whose transport fails surfaces exactly that URL-free error. -/
theorem C8_spec (e : ReqwestError) :
    Error.fromReqwest e = .Http ⟨e.desc, none⟩
    ∧ Error.display (Error.fromReqwest e)
        = "An error occurred when sending a request: " ++ e.desc
    ∧ (∀ u u', Error.display (Error.fromReqwest ⟨e.desc, u⟩)
        = Error.display (Error.fromReqwest ⟨e.desc, u'⟩))
    ∧ (∀ (t : HttpRequest → Except ReqwestError Unit) m url f req,
        buildWebhookRequest url f m = .ok req → t req = .error e →
        dispatch_webhook t m url f = .error (.Http ⟨e.desc, none⟩)) := by
  obtain ⟨desc, url⟩ := e
  refine ⟨rfl, rfl, fun u u' => rfl, ?_⟩
  intro t m url2 f req hb ht
  simp [dispatch_webhook, hb, ht, Error.fromReqwest, ReqwestError.without_url]

/-- Witness for C8: a transport failure that carries the webhook URL is
surfaced without it. -/
theorem C8_witness :
    dispatch_webhook (fun _ => .error ⟨"connection failed", some "https://hooks/token"⟩)
        "m" "https://hooks/token" (.Standard .PlainText)
      = .error (.Http ⟨"connection failed", none⟩) :=
  (C8_spec ⟨"connection failed", some "https://hooks/token"⟩).2.2.2
    (fun _ => .error ⟨"connection failed", some "https://hooks/token"⟩)
    "m" "https://hooks/token" (.Standard .PlainText)
    ⟨.POST, "https://hooks/token", [("content-type", "text/plain")], "m"⟩
    (by decide) rfl

/-- C10: every Standard format dispatches with method POST and the single
content-type header fixed by the format, while the Custom format uses its
configured method and its configured (validated, name-lowercased) header
mapping. -/
theorem C10_spec (url m : String) :
    (∀ sf : StandardWebhookFormat,
        buildWebhookRequest url (.Standard sf) m
          = .ok ⟨.POST, url,
                 [("content-type", WebhookFormat.as_content_type (.Standard sf))],
                 WebhookFormat.format_message (.Standard sf) m⟩)
    ∧ (∀ (c : CustomWebhookFormat) (req : HttpRequest),
        buildWebhookRequest url (.Custom c) m = .ok req →
          req.method = c.http.method
          ∧ req.url = url
          ∧ as_header_map c.http.headers = .ok req.headers
          ∧ req.headers = c.http.headers.map (fun p => (headerLower p.1, p.2))
          ∧ req.body = WebhookFormat.format_message (.Custom c) m) := by
  refine ⟨?_, ?_⟩
  · intro sf
    cases sf <;> rfl
  · intro c req h
    simp only [buildWebhookRequest] at h
    cases ham : as_header_map c.http.headers with
    | error e =>
      rw [ham] at h
      exact absurd h (by simp)
    | ok hs =>
      rw [ham] at h
      simp only [Except.ok.injEq] at h
      subst h
      exact ⟨rfl, rfl, rfl, as_header_map_ok _ _ ham, rfl⟩

/-- Witness for C10: a custom PUT webhook with a JSON content type produces
the PUT request with the lowercased configured header and the substituted
body. -/
theorem C10_witness :
    reqC10.method = cFmtC10.http.method
    ∧ reqC10.url = "u"
    ∧ as_header_map cFmtC10.http.headers = .ok reqC10.headers
    ∧ reqC10.headers = cFmtC10.http.headers.map (fun p => (headerLower p.1, p.2))
    ∧ reqC10.body = WebhookFormat.format_message (.Custom cFmtC10) "m" :=
  (C10_spec "u" "m").2 cFmtC10 reqC10 (by decide)

end Noti
